import Mathlib

/-!
Verification development for a small compiler front end implemented as a
bison grammar with semantic actions (`parser.y`).  The development embeds
the semantic-action pipeline: the AST node structure, the flat symbol
table with its fail-fast checks, statement-chain accumulation, the visual
tree renderer, the fully parenthesising code generator and the
build/execute orchestration.
-/

set_option maxRecDepth 10000

namespace CompilerProject

/-- Single quote character, used to build diagnostic message strings. -/
def sq : String := String.mk [Char.ofNat 39]

/-- The enum `NodeType` mirrors the C enum
`{ N_DECL, N_ASSIGN, N_PRINT, N_PRINT_STR, N_IF, N_BINOP, N_NUM, N_ID, N_STMTLIST }`. -/
inductive NodeType where
  | N_DECL | N_ASSIGN | N_PRINT | N_PRINT_STR | N_IF
  | N_BINOP | N_NUM | N_ID | N_STMTLIST
  deriving DecidableEq, Repr

/-- The type `Node` mirrors `struct Node` from the source: a tag, an optional string
value (`sval`, NULL modelled as `none`), an integer value (`ival`) and three
child pointers `left`, `right`, `next` (NULL pointers modelled by the
`nullN` constructor). -/
inductive Node where
  | nullN : Node
  | node (type : NodeType) (sval : Option String) (ival : Int)
      (left : Node) (right : Node) (next : Node) : Node
  deriving DecidableEq, Repr

/-- The constructor `mknode` mirrors the C constructor: it fills the fields and sets
`next = NULL`. -/
def mknode (t : NodeType) (s : Option String) (v : Int) (l r : Node) : Node :=
  Node.node t s v l r Node.nullN

/-- Overwrite the `next` field of a node (models `n->next = e;`). -/
def setNext : Node → Node → Node
  | Node.nullN, _ => Node.nullN
  | Node.node t s v l r _, e => Node.node t s v l r e

/-- The function `append_stmt` mirrors the C function: if the head is NULL return the new
statement, otherwise walk the `next` chain to its tail and attach the new
statement there. -/
def append_stmt : Node → Node → Node
  | Node.nullN, stmt => stmt
  | Node.node t s v l r Node.nullN, stmt => Node.node t s v l r stmt
  | Node.node t s v l r nxt, stmt => Node.node t s v l r (append_stmt nxt stmt)

/-- Reading a possibly-NULL `sval` as text (the C code passes `sval`
directly to `%s`; every reachable use has a non-NULL `sval`). -/
def svalStr : Option String → String
  | some s => s
  | none => ""

/-- True exactly on the NULL node. -/
def isNullNode : Node → Bool
  | Node.nullN => true
  | Node.node _ _ _ _ _ _ => false

/-- The `next` field of a node (NULL for the NULL node). -/
def nextOf : Node → Node
  | Node.nullN => Node.nullN
  | Node.node _ _ _ _ _ nxt => nxt

/-- The elements of a `next`-chain, each with its `next` field cleared. -/
def chainNodes : Node → List Node
  | Node.nullN => []
  | Node.node t s v l r nxt => Node.node t s v l r Node.nullN :: chainNodes nxt

/-- Decimal digit character (code 48 + d). -/
def digitChar (d : Nat) : Char := Char.ofNat (48 + d)

/-- Decimal digits of a natural number, most significant first
(the digit sequence that `%d` prints for a non-negative value). -/
def natDecChars (n : Nat) : List Char :=
  if n < 10 then [digitChar n]
  else natDecChars (n / 10) ++ [digitChar (n % 10)]
  decreasing_by exact Nat.div_lt_self (by omega) (by omega)

/-- Text that `fprintf(out, "%d", i)` produces. -/
def intToDec (i : Int) : String :=
  if i < 0 then String.mk (Char.ofNat 45 :: natDecChars ((-i).toNat))
  else String.mk (natDecChars i.toNat)

/-- Fatal semantic errors raised by the table (`exit(1)` paths in C). -/
inductive Err where
  | duplicateDeclaration (name : String)
  | undeclaredVariable (name : String)
  deriving DecidableEq, Repr

/-- The symbol table: the C linked list of declared names, most recent
first (`new_sym->next = symbol_table`). -/
abbrev Table := List String

/-- The function `add_symbol` mirrors the C function: scan the list for `name`; if
present, fail (the C code prints and calls `exit(1)`); otherwise prepend. -/
def add_symbol (t : Table) (name : String) : Except Err Table :=
  if name ∈ t then Except.error (Err.duplicateDeclaration name)
  else Except.ok (name :: t)

/-- The function `check_declared` mirrors the C function: succeed if `name` is in the
table, otherwise fail (the C code prints and calls `exit(1)`). -/
def check_declared (t : Table) (name : String) : Except Err Unit :=
  if name ∈ t then Except.ok ()
  else Except.error (Err.undeclaredVariable name)

/-- Surface expressions, following the `expr` grammar alternatives. -/
inductive SExpr where
  | assign (name : String) (e : SExpr)
  | binop (op : String) (l r : SExpr)
  | neg (e : SExpr)
  | paren (e : SExpr)
  | num (v : Int)
  | id (name : String)
  deriving Repr

/-- Surface statements, following the `statement` grammar alternatives;
blocks are the statement lists between braces. -/
inductive SStmt where
  | declNoInit (name : String)
  | declInit (name : String) (e : SExpr)
  | exprStmt (e : SExpr)
  | printE (e : SExpr)
  | printS (s : String)
  | ifThen (c : SExpr) (b : List SStmt)
  | ifElse (c : SExpr) (b1 b2 : List SStmt)
  deriving Repr

/-- The operator string `"neg"` used by the unary-minus rule. -/
def negStr : String := "neg"

/-- Node built by each `expr` semantic action (the `mknode` calls of the
grammar; the parenthesised-expression rule passes its child through unchanged). -/
def buildExpr : SExpr → Node
  | SExpr.assign x e => mknode NodeType.N_ASSIGN (some x) 0 (buildExpr e) Node.nullN
  | SExpr.binop op l r => mknode NodeType.N_BINOP (some op) 0 (buildExpr l) (buildExpr r)
  | SExpr.neg e => mknode NodeType.N_BINOP (some negStr) 0 (buildExpr e) Node.nullN
  | SExpr.paren e => buildExpr e
  | SExpr.num v => mknode NodeType.N_NUM none v Node.nullN Node.nullN
  | SExpr.id x => mknode NodeType.N_ID (some x) 0 Node.nullN Node.nullN

mutual

/-- Node built by each `statement` semantic action.  The `if/else` form
builds the If node and then stores the else block in the generic
`next` field (`ifn->next = $7;`). -/
def buildStmt : SStmt → Node
  | SStmt.declNoInit x => mknode NodeType.N_DECL (some x) 0 Node.nullN Node.nullN
  | SStmt.declInit x e => mknode NodeType.N_DECL (some x) 0 (buildExpr e) Node.nullN
  | SStmt.exprStmt e => buildExpr e
  | SStmt.printE e => mknode NodeType.N_PRINT none 0 (buildExpr e) Node.nullN
  | SStmt.printS s => mknode NodeType.N_PRINT_STR (some s) 0 Node.nullN Node.nullN
  | SStmt.ifThen c b =>
      mknode NodeType.N_IF none 0 (buildExpr c)
        (mknode NodeType.N_STMTLIST none 0 (buildListAux Node.nullN b) Node.nullN)
  | SStmt.ifElse c b1 b2 =>
      setNext
        (mknode NodeType.N_IF none 0 (buildExpr c)
          (mknode NodeType.N_STMTLIST none 0 (buildListAux Node.nullN b1) Node.nullN))
        (mknode NodeType.N_STMTLIST none 0 (buildListAux Node.nullN b2) Node.nullN)
termination_by structural s => s

/-- Chain accumulation of the left-recursive `stmt_list` rule:
`$$ = $1 ? append_stmt($1, $2) : $2`, starting from the empty (NULL) list. -/
def buildListAux (acc : Node) : List SStmt → Node
  | [] => acc
  | s :: rest =>
      buildListAux
        (match acc with
         | Node.nullN => buildStmt s
         | c => append_stmt c (buildStmt s)) rest
termination_by structural l => l

end

/-- The statement chain built for a whole statement list. -/
def buildList (l : List SStmt) : Node := buildListAux Node.nullN l

/-- The block node built by the `block` rule:
`mknode(N_STMTLIST, NULL, 0, $2, NULL)`. -/
def blockNode (l : List SStmt) : Node :=
  mknode NodeType.N_STMTLIST none 0 (buildList l) Node.nullN

/-- Semantic action for each `expr` alternative, in reduction order: for
the assignment rule the sub-expression is reduced (and checked) first, then
`check_declared($1)` runs; for binary operators the checks of the left operand
precede those of the right one; `ID` is checked at its own reduction. -/
def semExpr (t : Table) : SExpr → Except Err Node
  | SExpr.assign x e => do
      let n ← semExpr t e
      let _ ← check_declared t x
      Except.ok (mknode NodeType.N_ASSIGN (some x) 0 n Node.nullN)
  | SExpr.binop op l r => do
      let ln ← semExpr t l
      let rn ← semExpr t r
      Except.ok (mknode NodeType.N_BINOP (some op) 0 ln rn)
  | SExpr.neg e => do
      let n ← semExpr t e
      Except.ok (mknode NodeType.N_BINOP (some negStr) 0 n Node.nullN)
  | SExpr.paren e => semExpr t e
  | SExpr.num v => Except.ok (mknode NodeType.N_NUM none v Node.nullN Node.nullN)
  | SExpr.id x => do
      let _ ← check_declared t x
      Except.ok (mknode NodeType.N_ID (some x) 0 Node.nullN Node.nullN)

mutual

/-- Semantic action for each `statement` alternative.  Declarations call
`add_symbol` (for an initialised declaration the initializer is reduced first);
block statements thread the single flat table through their bodies. -/
def semStmt (t : Table) : SStmt → Except Err (Table × Node)
  | SStmt.declNoInit x => do
      let t2 ← add_symbol t x
      Except.ok (t2, mknode NodeType.N_DECL (some x) 0 Node.nullN Node.nullN)
  | SStmt.declInit x e => do
      let n ← semExpr t e
      let t2 ← add_symbol t x
      Except.ok (t2, mknode NodeType.N_DECL (some x) 0 n Node.nullN)
  | SStmt.exprStmt e => do
      let n ← semExpr t e
      Except.ok (t, n)
  | SStmt.printE e => do
      let n ← semExpr t e
      Except.ok (t, mknode NodeType.N_PRINT none 0 n Node.nullN)
  | SStmt.printS s =>
      Except.ok (t, mknode NodeType.N_PRINT_STR (some s) 0 Node.nullN Node.nullN)
  | SStmt.ifThen c b => do
      let cn ← semExpr t c
      let (t2, bl) ← semListAux t Node.nullN b
      Except.ok (t2, mknode NodeType.N_IF none 0 cn
        (mknode NodeType.N_STMTLIST none 0 bl Node.nullN))
  | SStmt.ifElse c b1 b2 => do
      let cn ← semExpr t c
      let (t1, bl1) ← semListAux t Node.nullN b1
      let (t2, bl2) ← semListAux t1 Node.nullN b2
      Except.ok (t2, setNext
        (mknode NodeType.N_IF none 0 cn
          (mknode NodeType.N_STMTLIST none 0 bl1 Node.nullN))
        (mknode NodeType.N_STMTLIST none 0 bl2 Node.nullN))
termination_by structural s => s

/-- Semantic action of the left-recursive `stmt_list` rule with its check
side effects: statements are processed left to right, each new node being
appended at the tail of the accumulated chain. -/
def semListAux (t : Table) (acc : Node) : List SStmt → Except Err (Table × Node)
  | [] => Except.ok (t, acc)
  | s :: rest => do
      let (t1, n) ← semStmt t s
      semListAux t1
        (match acc with
         | Node.nullN => n
         | c => append_stmt c n) rest
termination_by structural l => l

end

/-- Full semantic processing of a statement list, starting from the empty
symbol table of a fresh compilation and the empty (NULL) chain. -/
def semList (t : Table) (l : List SStmt) : Except Err (Table × Node) :=
  semListAux t Node.nullN l

/-- Declaration/use events, in the order the semantic actions fire. -/
inductive SemEvent where
  | decl (name : String)
  | use (name : String)
  deriving DecidableEq, Repr

/-- Table events of an expression, in reduction order. -/
def exprEvents : SExpr → List SemEvent
  | SExpr.assign x e => exprEvents e ++ [SemEvent.use x]
  | SExpr.binop _ l r => exprEvents l ++ exprEvents r
  | SExpr.neg e => exprEvents e
  | SExpr.paren e => exprEvents e
  | SExpr.num _ => []
  | SExpr.id x => [SemEvent.use x]

mutual

/-- Table events of a statement, in reduction order. -/
def stmtEvents : SStmt → List SemEvent
  | SStmt.declNoInit x => [SemEvent.decl x]
  | SStmt.declInit x e => exprEvents e ++ [SemEvent.decl x]
  | SStmt.exprStmt e => exprEvents e
  | SStmt.printE e => exprEvents e
  | SStmt.printS _ => []
  | SStmt.ifThen c b => exprEvents c ++ listEvents b
  | SStmt.ifElse c b1 b2 => exprEvents c ++ (listEvents b1 ++ listEvents b2)
termination_by structural s => s

/-- Table events of a statement list, in reduction order. -/
def listEvents : List SStmt → List SemEvent
  | [] => []
  | s :: rest => stmtEvents s ++ listEvents rest
termination_by structural l => l

end

/-- Replay a list of events against the table: the first failing event
determines the error, mirroring the fail-fast `exit(1)` discipline. -/
def runEvents (t : Table) : List SemEvent → Except Err Table
  | [] => Except.ok t
  | SemEvent.use x :: l =>
      if x ∈ t then runEvents t l else Except.error (Err.undeclaredVariable x)
  | SemEvent.decl x :: l =>
      if x ∈ t then Except.error (Err.duplicateDeclaration x)
      else runEvents (x :: t) l

/-- The function `gen_expr` mirrors the C code generator for expressions: numbers print
their `%d` text, identifiers their name, assignments `(name = value)`,
`neg` binops `(-operand)` and other binops `(left op right)`; all other
node kinds fall to `default: break` and emit nothing. -/
def gen_expr : Node → String
  | Node.nullN => ""
  | Node.node t sv iv l r _ =>
    match t with
    | NodeType.N_NUM => intToDec iv
    | NodeType.N_ID => svalStr sv
    | NodeType.N_ASSIGN => "(" ++ svalStr sv ++ " = " ++ gen_expr l ++ ")"
    | NodeType.N_BINOP =>
        if sv = some negStr then ("(-" ++ gen_expr l ++ ")")
        else ("(" ++ gen_expr l ++ " " ++ svalStr sv ++ " " ++ gen_expr r ++ ")")
    | _ => ""

/-- Four spaces per indentation level
(`for (int i = 0; i < indent; i++) fprintf(out, "    ");`). -/
def indentUnit : String := "    "

/-- Four-space indentation repeated `n` times. -/
def indentStr (n : Nat) : String := String.join (List.replicate n indentUnit)

mutual

/-- The function `gen_stmt` mirrors the C statement generator: the indentation is
printed first for every node kind; `N_IF` prints the condition and the
then the block chain at `indent+1`, then the closing brace, then an else
block exactly when the `next` field of the node holds an `N_STMTLIST` node;
`N_STMTLIST` prints nothing further; every other kind falls to the
default case `gen_expr` plus `";\n"`. -/
def gen_stmt : Node → Nat → String
  | Node.nullN, _ => ""
  | Node.node t sv iv l r nxt, ind =>
    indentStr ind ++
    match t with
    | NodeType.N_DECL =>
        "int " ++ svalStr sv ++
        (match l with
         | Node.nullN => ""
         | le => " = " ++ gen_expr le) ++ ";\n"
    | NodeType.N_PRINT => "printf(\"%d\\n\", " ++ gen_expr l ++ ");\n"
    | NodeType.N_PRINT_STR => "printf(\"%s\\n\", " ++ svalStr sv ++ ");\n"
    | NodeType.N_IF =>
        "if (" ++ gen_expr l ++ ") \x7b\n" ++
        (match r with
         | Node.node NodeType.N_STMTLIST _ _ inner _ _ => genChainStmts inner (ind + 1)
         | _ => "") ++
        indentStr ind ++ "\x7d" ++
        (match nxt with
         | Node.node NodeType.N_STMTLIST _ _ einner _ _ =>
             " else \x7b\n" ++ genChainStmts einner (ind + 1) ++ indentStr ind ++ "\x7d\n"
         | _ => "\n")
    | NodeType.N_STMTLIST => ""
    | _ => gen_expr (Node.node t sv iv l r nxt) ++ ";\n"
termination_by n _ => (sizeOf n, 0)

/-- The statement loops of the generator
(`for (Node *p = ...; p; p = p->next) gen_stmt(out, p, ...)`). -/
def genChainStmts : Node → Nat → String
  | Node.nullN, _ => ""
  | Node.node t sv iv l r nxt, ind =>
      gen_stmt (Node.node t sv iv l r nxt) ind ++ genChainStmts nxt ind
termination_by n _ => (sizeOf n, 1)

end

/-- The full `output.c` text written by `generate_target_code`: prologue,
the top-level chain at indent 1, epilogue. -/
def targetCode (chain : Node) : String :=
  "#include <stdio.h>\n#include <stdlib.h>\n\nint main() \x7b\n" ++
  genChainStmts chain 1 ++
  "    return 0;\n\x7d\n"

/-- The whole front end on a parsed program: the semantic actions run
first (any fatal error exits before any file is written), and only on
success is the `output.c` text produced. -/
def compile (p : List SStmt) : Except Err String :=
  match semList [] p with
  | Except.error e => Except.error e
  | Except.ok (_, chain) => Except.ok (targetCode chain)

/-- Output channel of a printed diagnostic. -/
inductive Channel where
  | stdout | stderr
  deriving DecidableEq, Repr

/-- What the process does on one fatal condition: which diagnostic text it
prints, where, and the status `main` exits with. -/
structure FatalOutcome where
  channel : Channel
  message : String
  exitCode : Int
  deriving DecidableEq, Repr

/-- C1 data: what `main` does when the input file cannot be opened — it
prints the cannot-open diagnostic with `printf` and returns -1. -/
def cannotOpenInputOutcome : FatalOutcome :=
  { channel := Channel.stdout
    message := "Error: Cannot open " ++ sq ++ "input.txt" ++ sq ++ "!"
    exitCode := -1 }

/-- C1 data: a syntax error calls
`yyerror` (`fprintf(stderr, "Parse error: %s\n", s)`), after which
`yyparse` returns and `main` falls through to `return 0`. -/
def parseErrorOutcome (s : String) : FatalOutcome :=
  { channel := Channel.stderr
    message := "Parse error: " ++ s
    exitCode := 0 }

/-- C1 data: what `add_symbol` does on a duplicate name — it prints the
already-declared diagnostic with `printf` and calls `exit(1)`. -/
def duplicateDeclOutcome (x : String) : FatalOutcome :=
  { channel := Channel.stdout
    message := "Error: Variable " ++ sq ++ x ++ sq ++ " is already declared!"
    exitCode := 1 }

/-- C1 data: what `check_declared` does on a missing name — it prints the
used-but-not-declared diagnostic with `printf` and calls `exit(1)`. -/
def undeclaredVarOutcome (x : String) : FatalOutcome :=
  { channel := Channel.stdout
    message := "Semantic Error: Variable " ++ sq ++ x ++ sq ++ " used but not declared."
    exitCode := 1 }

/-- The command string of the compile subprocess. -/
def compileCmd : String := "gcc output.c -o program"

/-- The command string of the run subprocess. -/
def runCmd : String := "program > result.txt"

/-- Banner line printed on entry to `execute_generated_code`. -/
def headerLine : String := "\n--- EXECUTION RESULTS ---"

/-- Closing banner line of `execute_generated_code`. -/
def footerLine : String := "-------------------------"

/-- Diagnostic printed when the compile subprocess returns non-zero. -/
def compileFailLine : String := "Error: Compilation failed."

/-- Diagnostic printed when `result.txt` cannot be opened. -/
def readFailLine : String := "Error reading result.txt"

/-- Line printed after echoing the results artifact. -/
def savedLine : String := "\n(Output saved to " ++ sq ++ "result.txt" ++ sq ++ ")"

/-- All diagnostic lines `execute_generated_code` can ever print. -/
def diagnosticLines : List String := [compileFailLine, readFailLine]

/-- The function `execute_generated_code` modelled as a function from the two subprocess exit
statuses and the readable contents of `result.txt` to the sequence of
prints: on non-zero compile status it reports and returns early (no
footer); otherwise it echoes the results only when the run status is
zero, and prints the footer either way — a non-zero run status produces
no report at all. -/
def execute_generated_code (compile_status run_status : Int)
    (result_file : Option String) : List String :=
  headerLine ::
  (if compile_status ≠ 0 then [compileFailLine]
   else
     (if run_status = 0 then
        match result_file with
        | some s => [s, savedLine]
        | none => [readFailLine]
      else []) ++ [footerLine])

/-- Continuation bar segment of the renderer. -/
def barSeg : String := "|   "

/-- Blank segment of the renderer. -/
def blankSeg : String := "    "

/-- Connector used for a last child. -/
def lastConn : String := "+-- "

/-- Connector used for a child with further siblings. -/
def midConn : String := "|-- "

/-- The ancestor-bar part of `print_branch`: for `i` from `0` to
`depth - 2`, a bar segment when bit `i` of the mask is set, else blanks. -/
def branchBars (depth : Nat) (mask : Nat) : String :=
  String.join ((List.range (depth - 1)).map
    (fun i => if mask.testBit i then barSeg else blankSeg))

/-- The function `print_branch` mirrors the C function: the ancestor bars, then (when
`depth > 0`) the `+-- ` or `|-- ` connector. -/
def print_branch (depth : Nat) (is_last : Bool) (mask : Nat) : String :=
  branchBars depth mask ++
  (if 0 < depth then (if is_last then lastConn else midConn) else (""))

/-- The one-line label the renderer prints for a node
(the `switch` in `print_tree_visual`). -/
def nodeLabel (t : NodeType) (sv : Option String) (iv : Int) : String :=
  match t with
  | NodeType.N_DECL => "DECL (" ++ svalStr sv ++ ")"
  | NodeType.N_ASSIGN => "ASSIGN (=) " ++ svalStr sv
  | NodeType.N_PRINT => "PRINT (Expr)"
  | NodeType.N_PRINT_STR => "PRINT (String): " ++ svalStr sv
  | NodeType.N_IF => "IF"
  | NodeType.N_BINOP => "OP (" ++ svalStr sv ++ ")"
  | NodeType.N_NUM => "NUM (" ++ intToDec iv ++ ")"
  | NodeType.N_ID => "ID (" ++ svalStr sv ++ ")"
  | NodeType.N_STMTLIST => "BLOCK"

mutual

/-- The function `print_tree_visual` as a pure function returning the printed lines:
the branch-prefixed label of the node, then for an `N_STMTLIST` the loop
over its `left` chain (each child marked last exactly when its `next` is
NULL), and otherwise the `left`/`right` children with the right (or only)
child marked last.  The `next` field is never rendered as a child. -/
def renderNode : Node → Nat → Bool → Nat → List String
  | Node.nullN, _, _, _ => []
  | Node.node t sv iv l r _nxt, depth, is_last, mask =>
    (print_branch depth is_last mask ++ nodeLabel t sv iv) ::
    (if t = NodeType.N_STMTLIST then
       renderChain l (depth + 1) (if is_last then mask else mask ||| (1 <<< depth))
     else
       match l, r with
       | Node.nullN, Node.nullN => []
       | Node.nullN, rr =>
           renderNode rr (depth + 1) true (if is_last then mask else mask ||| (1 <<< depth))
       | ll, Node.nullN =>
           renderNode ll (depth + 1) true (if is_last then mask else mask ||| (1 <<< depth))
       | ll, rr =>
           renderNode ll (depth + 1) false (if is_last then mask else mask ||| (1 <<< depth)) ++
           renderNode rr (depth + 1) true (if is_last then mask else mask ||| (1 <<< depth)))
termination_by n _ _ _ => (sizeOf n, 0)

/-- The statement-list loop of the renderer: each chain element is rendered
with `is_last` true exactly when its `next` pointer is NULL. -/
def renderChain : Node → Nat → Nat → List String
  | Node.nullN, _, _ => []
  | Node.node t sv iv l r nxt, depth, mask =>
      renderNode (Node.node t sv iv l r nxt) depth (isNullNode nxt) mask ++
      renderChain nxt depth mask
termination_by n _ _ => (sizeOf n, 1)

end

/-- Left parenthesis character. -/
def lparenC : Char := Char.ofNat 40

/-- Right parenthesis character. -/
def rparenC : Char := Char.ofNat 41

/-- Minus character. -/
def minusC : Char := Char.ofNat 45

/-- Space character. -/
def spaceC : Char := Char.ofNat 32

/-- Equals character. -/
def eqC : Char := Char.ofNat 61

/-- Decimal digit test on the character code. -/
def isDigitC (c : Char) : Bool := 48 ≤ c.toNat && c.toNat ≤ 57

/-- ASCII letter test on the character code. -/
def isAlphaC (c : Char) : Bool :=
  (65 ≤ c.toNat && c.toNat ≤ 90) || (97 ≤ c.toNat && c.toNat ≤ 122)

/-- Split off the longest prefix satisfying `p`. -/
def takeWhileC (p : Char → Bool) : List Char → List Char × List Char
  | [] => ([], [])
  | c :: cs =>
      if p c then
        let r := takeWhileC p cs
        (c :: r.1, r.2)
      else ([], c :: cs)

/-- Value of a decimal digit string. -/
def digitsVal (ds : List Char) : Nat :=
  ds.foldl (fun a c => a * 10 + (c.toNat - 48)) 0

/-- Modelled from the spec: a reference parser of fully parenthesised
expressions (the lexical scanner itself is not part of the repository
sources).  It accepts exactly the shapes the generator emits — decimal
numbers, alphabetic identifiers, `(-e)`, `(x = e)` and `(l op r)` — and
rebuilds the same `Node` values the grammar actions build. -/
def parseE : Nat → List Char → Option (Node × List Char)
  | 0, _ => none
  | _, [] => none
  | fuel + 1, c :: rest =>
    if c = lparenC then
      match rest with
      | [] => none
      | m :: rest2 =>
        if m = minusC then
          match parseE fuel rest2 with
          | some (e, r1) =>
            match r1 with
            | k :: r2 =>
                if k = rparenC then
                  some (mknode NodeType.N_BINOP (some negStr) 0 e Node.nullN, r2)
                else none
            | [] => none
          | none => none
        else
          match parseE fuel (m :: rest2) with
          | some (lhs, r1) =>
            match r1 with
            | k :: r2 =>
              if k = spaceC then
                let op := takeWhileC (fun d => !(d = spaceC)) r2
                match op.2 with
                | k2 :: r3 =>
                  if k2 = spaceC then
                    match parseE fuel r3 with
                    | some (rhs, r4) =>
                      match r4 with
                      | k3 :: r5 =>
                        if k3 = rparenC then
                          if op.1 = [eqC] then
                            match lhs with
                            | Node.node NodeType.N_ID (some x) 0
                                Node.nullN Node.nullN Node.nullN =>
                                some (mknode NodeType.N_ASSIGN (some x) 0 rhs Node.nullN, r5)
                            | _ => none
                          else
                            some (mknode NodeType.N_BINOP (some (String.mk op.1)) 0 lhs rhs, r5)
                        else none
                      | [] => none
                    | none => none
                  else none
                | [] => none
              else none
            | [] => none
          | none => none
    else if isDigitC c then
      let d := takeWhileC isDigitC (c :: rest)
      some (mknode NodeType.N_NUM none (Int.ofNat (digitsVal d.1)) Node.nullN Node.nullN, d.2)
    else if isAlphaC c then
      let a := takeWhileC isAlphaC (c :: rest)
      some (mknode NodeType.N_ID (some (String.mk a.1)) 0 Node.nullN Node.nullN, a.2)
    else none

/-- Binary operator text of the `+` rule. -/
def plusStr : String := "+"

/-- Binary operator text of the `-` rule. -/
def minusStr : String := "-"

/-- Binary operator text of the `*` rule. -/
def timesStr : String := "*"

/-- Binary operator text of the `/` rule. -/
def divStr : String := "/"

/-- Binary operator text of the `EQ` rule. -/
def eqeqStr : String := "=="

/-- Binary operator text of the `NEQ` rule. -/
def neqStr : String := "!="

/-- Binary operator text of the `LT` rule. -/
def ltStr : String := "<"

/-- Binary operator text of the `GT` rule. -/
def gtStr : String := ">"

/-- Binary operator text of the `LE` rule. -/
def leStr : String := "<="

/-- Binary operator text of the `GE` rule. -/
def geStr : String := ">="

/-- The ten binary operator strings of the grammar. -/
def binopStrs : List String :=
  [plusStr, minusStr, timesStr, divStr, eqeqStr, neqStr, ltStr, gtStr, leStr, geStr]

/-- A lexically valid identifier name: non-empty, all ASCII letters. -/
def goodName (s : String) : Bool :=
  !s.data.isEmpty && s.data.all isAlphaC

/-- Well-formed expression nodes: exactly the node shapes the expression
rules of the grammar can build, with lexically valid names and numbers. -/
def wfExpr : Node → Bool
  | Node.nullN => false
  | Node.node t sv iv l r nxt =>
    isNullNode nxt &&
    match t, sv with
    | NodeType.N_NUM, none => decide (0 ≤ iv) && isNullNode l && isNullNode r
    | NodeType.N_ID, some s => goodName s && iv = 0 && isNullNode l && isNullNode r
    | NodeType.N_ASSIGN, some s => goodName s && iv = 0 && wfExpr l && isNullNode r
    | NodeType.N_BINOP, some op =>
        iv = 0 &&
        (if op = negStr then wfExpr l && isNullNode r
         else decide (op ∈ binopStrs) && wfExpr l && wfExpr r)
    | _, _ => false

/-- Nesting depth of an expression node, used as the parser fuel bound. -/
def depthE : Node → Nat
  | Node.nullN => 0
  | Node.node _ _ _ l r _ => 1 + max (depthE l) (depthE r)

/-! ### Concrete test data used by witnesses and counterexamples -/

/-- Name `x` used in concrete test programs. -/
def xStr : String := "x"

/-- Name `y` used in concrete test programs. -/
def yStr : String := "y"

/-- Name `a` used in concrete test programs. -/
def aStr : String := "a"

/-- Name `b` used in concrete test programs. -/
def bStr : String := "b"

/-- The bison diagnostic text for a syntax error. -/
def parseFailMsg : String := "syntax error"

/-- Sample results-artifact contents. -/
def resText : String := "16"

/-- Concrete program using two identifiers that were never declared. -/
def pUndecl2 : List SStmt :=
  [SStmt.printE (SExpr.id aStr), SStmt.printE (SExpr.id bStr)]

/-- Concrete program declaring `x` twice with an undeclared use between. -/
def pDup : List SStmt :=
  [SStmt.declNoInit xStr, SStmt.printE (SExpr.id yStr), SStmt.declNoInit xStr]

/-- Concrete program whose first statement is an `if/else`. -/
def pIfElse : List SStmt :=
  [SStmt.ifElse (SExpr.num 1) [] [], SStmt.printS xStr]

/-- Concrete well-formed expression node: `x = (y + (-12))`. -/
def eSample : Node :=
  buildExpr (SExpr.assign xStr
    (SExpr.binop plusStr (SExpr.id yStr) (SExpr.neg (SExpr.num 12))))

/-- Concrete number node `1`. -/
def num1N : Node := mknode NodeType.N_NUM none 1 Node.nullN Node.nullN

/-- Concrete number node `2`. -/
def num2N : Node := mknode NodeType.N_NUM none 2 Node.nullN Node.nullN

/-! ### C1 — fatal-condition exit behaviour -/

/-- C1 (counterexample): the claim that every fatal condition exits
non-zero with a diagnostic on standard error is false on the code — a
syntax error leaves `main` returning 0, and a duplicate declaration
prints its diagnostic on standard output. -/
theorem C1_counterexample :
    (parseErrorOutcome parseFailMsg).exitCode = 0 ∧
    (duplicateDeclOutcome xStr).channel = Channel.stdout := by
  exact ⟨rfl, rfl⟩

/-- C1 (amended): duplicate declarations and undeclared variables exit
with status 1 but print their diagnostic on standard output; an
unopenable input exits with status −1, also printing on standard output;
a syntax error prints on standard error but the process then exits 0. -/
theorem C1_amended :
    (∀ x, (duplicateDeclOutcome x).exitCode = 1 ∧
      (duplicateDeclOutcome x).channel = Channel.stdout) ∧
    (∀ x, (undeclaredVarOutcome x).exitCode = 1 ∧
      (undeclaredVarOutcome x).channel = Channel.stdout) ∧
    (cannotOpenInputOutcome.exitCode = -1 ∧
      cannotOpenInputOutcome.channel = Channel.stdout) ∧
    (∀ s, (parseErrorOutcome s).exitCode = 0 ∧
      (parseErrorOutcome s).channel = Channel.stderr) := by
  exact ⟨fun _ => ⟨rfl, rfl⟩, fun _ => ⟨rfl, rfl⟩, ⟨rfl, rfl⟩, fun _ => ⟨rfl, rfl⟩⟩

/-! ### C4 — orchestrator behaviour on a failing run -/

/-- C4 (counterexample): when the generated executable exits non-zero the
orchestrator prints only the two banner lines — neither is one of its
diagnostic lines, so no `RuntimeError` is reported. -/
theorem C4_counterexample :
    execute_generated_code 0 1 (some resText) = [headerLine, footerLine] ∧
    headerLine ∉ diagnosticLines ∧ footerLine ∉ diagnosticLines := by
  refine ⟨rfl, ?_, ?_⟩ <;> decide

/-- C4 (amended): the run subprocess command redirects standard output to
the results artifact `result.txt`; when the executable exits non-zero the
orchestrator completes normally but reports nothing — it prints exactly
the two banner lines, which are not diagnostics. -/
theorem C4_amended :
    runCmd = "program > result.txt" ∧
    (∀ (rs : Int) (rf : Option String), rs ≠ 0 →
      execute_generated_code 0 rs rf = [headerLine, footerLine]) ∧
    headerLine ∉ diagnosticLines ∧ footerLine ∉ diagnosticLines := by
  refine ⟨rfl, ?_, by decide, by decide⟩
  intro rs rf h
  simp [execute_generated_code, h]

/-- C4 (witness): the amended theorem applied to run status 1. -/
theorem C4_witness :
    execute_generated_code 0 1 (some resText) = [headerLine, footerLine] :=
  C4_amended.2.1 1 (some resText) (by decide)

/-! ### Decimal-digit lemmas -/

theorem digitChar_toNat (d : Nat) (h : d < 10) : (digitChar d).toNat = 48 + d := by
  interval_cases d <;> decide

theorem isDigitC_digitChar (d : Nat) (h : d < 10) : isDigitC (digitChar d) = true := by
  interval_cases d <;> decide

theorem natDecChars_digits (n : Nat) : (natDecChars n).all isDigitC = true := by
  induction n using Nat.strong_induction_on with
  | _ n ih =>
    rw [natDecChars]
    by_cases h : n < 10
    · simp [h, isDigitC_digitChar n h]
    · have hd := ih (n / 10) (Nat.div_lt_self (by omega) (by omega))
      simp [h, hd, isDigitC_digitChar (n % 10) (Nat.mod_lt n (by omega))]

theorem natDecChars_ne_nil (n : Nat) : natDecChars n ≠ [] := by
  rw [natDecChars]
  by_cases h : n < 10 <;> simp [h]

theorem digitsVal_natDecChars (n : Nat) : digitsVal (natDecChars n) = n := by
  induction n using Nat.strong_induction_on with
  | _ n ih =>
    rw [natDecChars]
    by_cases h : n < 10
    · simp [h, digitsVal, digitChar_toNat n h]
    · have h1 := ih (n / 10) (Nat.div_lt_self (by omega) (by omega))
      simp only [digitsVal] at h1 ⊢
      simp only [h, if_false, List.foldl_append, List.foldl_cons, List.foldl_nil]
      rw [h1, digitChar_toNat (n % 10) (Nat.mod_lt n (by omega))]
      omega

/-! ### C6 — expression emission -/

/-- C6: the code generator emits a `NumberLiteral` as its decimal text (a
non-empty digit string whose value is the literal), an `Identifier` as
its name, a binary application as `"(" ++ left ++ " " ++ op ++ " " ++
right ++ ")"`, and a unary negation as `"(-" ++ operand ++ ")"`. -/
theorem C6_theorem :
    (∀ m : Nat,
      gen_expr (mknode NodeType.N_NUM none (Int.ofNat m) Node.nullN Node.nullN) =
        String.mk (natDecChars m) ∧
      (natDecChars m).all isDigitC = true ∧
      digitsVal (natDecChars m) = m ∧
      natDecChars m ≠ []) ∧
    (∀ s, gen_expr (mknode NodeType.N_ID (some s) 0 Node.nullN Node.nullN) = s) ∧
    (∀ op l r, op ≠ negStr →
      gen_expr (mknode NodeType.N_BINOP (some op) 0 l r) =
        "(" ++ gen_expr l ++ " " ++ op ++ " " ++ gen_expr r ++ ")") ∧
    (∀ e, gen_expr (mknode NodeType.N_BINOP (some negStr) 0 e Node.nullN) =
      "(-" ++ gen_expr e ++ ")") := by
  refine ⟨fun m => ⟨?_, natDecChars_digits m, digitsVal_natDecChars m,
      natDecChars_ne_nil m⟩, fun s => rfl, fun op l r h => ?_, fun e => rfl⟩
  · simp [gen_expr, mknode, intToDec]
  · simp [gen_expr, mknode, svalStr, h]

/-- C6 (witness): the binary-application clause at `1 + 2`. -/
theorem C6_witness :
    gen_expr (mknode NodeType.N_BINOP (some plusStr) 0 num1N num2N) =
      "(" ++ gen_expr num1N ++ " " ++ plusStr ++ " " ++ gen_expr num2N ++ ")" :=
  C6_theorem.2.2.1 plusStr num1N num2N (by decide)

/-! ### C10 — assignment emission -/

/-- C10: the generator emits an Assignment node as
`"(" ++ target ++ " = " ++ value ++ ")"`, and an assignment statement as
that parenthesised expression followed by `";"` (on its own indented
line). -/
theorem C10_theorem :
    (∀ x e, gen_expr (mknode NodeType.N_ASSIGN (some x) 0 e Node.nullN) =
      "(" ++ x ++ " = " ++ gen_expr e ++ ")") ∧
    (∀ x e ind, gen_stmt (buildStmt (SStmt.exprStmt (SExpr.assign x e))) ind =
      indentStr ind ++ ("(" ++ x ++ " = " ++ gen_expr (buildExpr e) ++ ")") ++ ";\n") := by
  constructor
  · intro x e
    rfl
  · intro x e ind
    simp [gen_stmt, buildStmt, buildExpr, gen_expr, mknode, svalStr,
      String.append_assoc]

/-! ### C8 — if/else emission -/

/-- True exactly on nodes tagged `N_STMTLIST` (the test
`s->next && s->next->type == N_STMTLIST`). -/
def isStmtlistNode : Node → Bool
  | Node.node NodeType.N_STMTLIST _ _ _ _ _ => true
  | _ => false

theorem buildExpr_not_stmtlist (e : SExpr) : isStmtlistNode (buildExpr e) = false := by
  induction e with
  | paren e ih => exact ih
  | _ => simp [buildExpr, mknode, isStmtlistNode]

/-- C8: an `If` node is emitted as the if-header line, then the then-block chain
at depth + 1, and a closing brace at the original depth; an `else { ... }`
block at the same depth follows exactly when the `next` field of the node holds
a statement-list (else) node — which among built statement nodes happens
only for the if/else form, since no statement ever builds an
`N_STMTLIST`-tagged node. -/
theorem C8_theorem :
    (∀ cond bchain ind nxt, isStmtlistNode nxt = false →
      gen_stmt (Node.node NodeType.N_IF none 0 cond
          (mknode NodeType.N_STMTLIST none 0 bchain Node.nullN) nxt) ind =
        indentStr ind ++ ("if (" ++ gen_expr cond ++ ") \x7b\n") ++
        genChainStmts bchain (ind + 1) ++ indentStr ind ++ "\x7d\n") ∧
    (∀ cond bchain echain ind,
      gen_stmt (Node.node NodeType.N_IF none 0 cond
          (mknode NodeType.N_STMTLIST none 0 bchain Node.nullN)
          (mknode NodeType.N_STMTLIST none 0 echain Node.nullN)) ind =
        indentStr ind ++ ("if (" ++ gen_expr cond ++ ") \x7b\n") ++
        genChainStmts bchain (ind + 1) ++ indentStr ind ++ "\x7d" ++
        (" else \x7b\n" ++ genChainStmts echain (ind + 1) ++ indentStr ind ++ "\x7d\n")) ∧
    (∀ s, isStmtlistNode (buildStmt s) = false) := by
  refine ⟨fun cond bchain ind nxt h => ?_, fun cond bchain echain ind => ?_, fun s => ?_⟩
  · cases nxt with
    | nullN => simp [gen_stmt, mknode, String.append_assoc]
    | node t sv iv l r nx =>
      cases t <;>
        simp_all [gen_stmt, mknode, isStmtlistNode, String.append_assoc]
  · simp [gen_stmt, mknode, String.append_assoc]
  · cases s <;>
      first
      | exact buildExpr_not_stmtlist _
      | simp [buildStmt, mknode, setNext, isStmtlistNode]

/-- C8 (witness): the no-else clause applied to the node built for
`if (x) \x7b \x7d` followed in the chain by a `print` statement. -/
theorem C8_witness :
    gen_stmt (Node.node NodeType.N_IF none 0
        (mknode NodeType.N_ID (some xStr) 0 Node.nullN Node.nullN)
        (mknode NodeType.N_STMTLIST none 0 Node.nullN Node.nullN)
        (buildStmt (SStmt.printS yStr))) 1 =
      indentStr 1 ++ ("if (" ++
        gen_expr (mknode NodeType.N_ID (some xStr) 0 Node.nullN Node.nullN) ++
        ") \x7b\n") ++
      genChainStmts Node.nullN 2 ++ indentStr 1 ++ "\x7d\n" :=
  C8_theorem.1 (mknode NodeType.N_ID (some xStr) 0 Node.nullN Node.nullN)
    Node.nullN 1 (buildStmt (SStmt.printS yStr)) (by decide)

/-! ### C5 — statement-chain accumulation -/

/-- True exactly on the `if/else` statement form. -/
def isIfElseStmt : SStmt → Bool
  | SStmt.ifElse _ _ _ => true
  | _ => false

theorem buildExpr_next_null (e : SExpr) : nextOf (buildExpr e) = Node.nullN := by
  induction e with
  | paren e ih => exact ih
  | _ => simp [buildExpr, mknode, nextOf]

theorem buildExpr_ne_null (e : SExpr) : isNullNode (buildExpr e) = false := by
  induction e with
  | paren e ih => exact ih
  | _ => simp [buildExpr, mknode, isNullNode]

theorem chainNodes_singleton (n : Node) (h1 : isNullNode n = false)
    (h2 : nextOf n = Node.nullN) : chainNodes n = [n] := by
  cases n with
  | nullN => simp [isNullNode] at h1
  | node t sv iv l r nxt =>
    simp [nextOf] at h2
    simp [chainNodes, h2]

theorem chainNodes_append_stmt (c s : Node) :
    chainNodes (append_stmt c s) = chainNodes c ++ chainNodes s := by
  induction c with
  | nullN => simp [append_stmt, chainNodes]
  | node t sv iv l r nxt ihl ihr ihn =>
    cases nxt with
    | nullN => simp [append_stmt, chainNodes]
    | node t2 sv2 iv2 l2 r2 nxt2 =>
      simp only [append_stmt, chainNodes, List.cons_append, List.cons.injEq, true_and]
      exact ihn

theorem chainNodes_buildStmt_nonIfElse (s : SStmt) (h : isIfElseStmt s = false) :
    chainNodes (buildStmt s) = [buildStmt s] := by
  cases s with
  | exprStmt e =>
      exact chainNodes_singleton (buildExpr e) (buildExpr_ne_null e) (buildExpr_next_null e)
  | ifElse c b1 b2 => simp [isIfElseStmt] at h
  | _ => simp [buildStmt, mknode, chainNodes]

theorem chainNodes_buildListAux (l : List SStmt) :
    ∀ acc, chainNodes (buildListAux acc l) =
      chainNodes acc ++ l.flatMap (fun s => chainNodes (buildStmt s)) := by
  induction l with
  | nil => intro acc; simp [buildListAux]
  | cons s rest ih =>
    intro acc
    cases acc with
    | nullN => simp [buildListAux, ih, chainNodes]
    | node t sv iv ln rn nxt =>
      simp [buildListAux, ih, chainNodes_append_stmt, chainNodes]

/-- C5 (counterexample): for a program whose first statement is an
`if/else`, the built chain has three elements for two source statements
(the else block is threaded into the chain), so the chain elements are
not exactly the source statements. -/
theorem C5_counterexample :
    chainNodes (buildList pIfElse) ≠ List.map buildStmt pIfElse ∧
    (chainNodes (buildList pIfElse)).length = 3 ∧ pIfElse.length = 2 := by
  refine ⟨?_, ?_, ?_⟩ <;> decide

/-- C5 (amended): the function `append_stmt` always attaches the chain of the new statement
at the tail of the current chain; consequently, for a statement list
containing no `if/else` form, the chain elements are exactly the built
source statements in source order — an `if/else` statement instead
contributes two chain entries, its If node and then its else block. -/
theorem C5_theorem :
    (∀ c s, chainNodes (append_stmt c s) = chainNodes c ++ chainNodes s) ∧
    (∀ l : List SStmt, (∀ s ∈ l, isIfElseStmt s = false) →
      chainNodes (buildList l) = l.map buildStmt) := by
  refine ⟨chainNodes_append_stmt, fun l h => ?_⟩
  rw [buildList, chainNodes_buildListAux l Node.nullN]
  simp only [chainNodes, List.nil_append]
  induction l with
  | nil => simp
  | cons s rest ih =>
    simp only [List.flatMap_cons, List.map_cons]
    rw [chainNodes_buildStmt_nonIfElse s (h s (by simp)),
      ih (fun s2 h2 => h s2 (by simp [h2]))]
    simp

/-- C5 (witness): the amended theorem applied to a two-statement program
without `if/else`. -/
theorem C5_witness :
    chainNodes (buildList [SStmt.declNoInit xStr, SStmt.printS yStr]) =
      List.map buildStmt [SStmt.declNoInit xStr, SStmt.printS yStr] :=
  C5_theorem.2 [SStmt.declNoInit xStr, SStmt.printS yStr] (by decide)

/-! ### C9 — else block in the next link and its rendering -/

theorem renderNode_unfold (t : NodeType) (sv : Option String) (iv : Int)
    (l r nxt : Node) (d : Nat) (last : Bool) (mask : Nat) :
    renderNode (Node.node t sv iv l r nxt) d last mask =
      (print_branch d last mask ++ nodeLabel t sv iv) ::
      (if t = NodeType.N_STMTLIST then
         renderChain l (d + 1) (if last then mask else mask ||| (1 <<< d))
       else
         match l, r with
         | Node.nullN, Node.nullN => []
         | Node.nullN, rr =>
             renderNode rr (d + 1) true (if last then mask else mask ||| (1 <<< d))
         | ll, Node.nullN =>
             renderNode ll (d + 1) true (if last then mask else mask ||| (1 <<< d))
         | ll, rr =>
             renderNode ll (d + 1) false (if last then mask else mask ||| (1 <<< d)) ++
             renderNode rr (d + 1) true (if last then mask else mask ||| (1 <<< d))) := by
  rw [renderNode.eq_def]

theorem renderChain_unfold (t : NodeType) (sv : Option String) (iv : Int)
    (l r nxt : Node) (d mask : Nat) :
    renderChain (Node.node t sv iv l r nxt) d mask =
      renderNode (Node.node t sv iv l r nxt) d (isNullNode nxt) mask ++
      renderChain nxt d mask := by
  rw [renderChain.eq_def]

/-- C9: an `if/else` statement stores its else block in the generic
`next` link of the node, so the statement-list loop of the renderer treats the
else block as a following sibling entry: the If node is rendered with
`is_last = false` (its connector is `|-- `, never the last-child
connector `+-- `), its rendered children are only the condition and the
then block, and the next sibling line is the `BLOCK` entry of the else block
entry at the same depth. -/
theorem C9_theorem :
    ∀ (c : SExpr) (b1 b2 : List SStmt) (d mask : Nat), 0 < d →
      renderChain (buildStmt (SStmt.ifElse c b1 b2)) d mask =
        renderNode (buildStmt (SStmt.ifElse c b1 b2)) d false mask ++
        renderNode (blockNode b2) d true mask ∧
      renderNode (buildStmt (SStmt.ifElse c b1 b2)) d false mask =
        (branchBars d mask ++ midConn ++ "IF") ::
        (renderNode (buildExpr c) (d + 1) false (mask ||| (1 <<< d)) ++
         renderNode (blockNode b1) (d + 1) true (mask ||| (1 <<< d))) ∧
      midConn ≠ lastConn ∧
      (renderNode (blockNode b2) d true mask).head? =
        some (branchBars d mask ++ lastConn ++ "BLOCK") := by
  intro c b1 b2 d mask hd
  refine ⟨?_, ?_, by decide, ?_⟩
  · simp only [buildStmt, mknode, setNext, blockNode, buildList]
    rw [renderChain_unfold, renderChain_unfold]
    simp [renderChain, isNullNode]
  · rcases hbe : buildExpr c with _ | ⟨t2, sv2, iv2, l2, r2, nx2⟩
    · have hne := buildExpr_ne_null c
      rw [hbe] at hne
      simp [isNullNode] at hne
    · simp only [buildStmt, mknode, setNext, blockNode, buildList, hbe]
      rw [renderNode_unfold]
      simp [print_branch, hd, nodeLabel, String.append_assoc]
  · simp only [blockNode, mknode]
    rw [renderNode_unfold]
    simp only [List.head?_cons, Option.some.injEq]
    simp [print_branch, hd, nodeLabel, String.append_assoc]

/-- C9 (witness): the theorem applied at depth 1, mask 0, to
`if (x) \x7b \x7d else \x7b print(y); \x7d`. -/
theorem C9_witness :
    renderChain (buildStmt (SStmt.ifElse (SExpr.id xStr) [] [SStmt.printE (SExpr.id yStr)])) 1 0 =
      renderNode (buildStmt (SStmt.ifElse (SExpr.id xStr) [] [SStmt.printE (SExpr.id yStr)])) 1 false 0 ++
      renderNode (blockNode [SStmt.printE (SExpr.id yStr)]) 1 true 0 ∧
    renderNode (buildStmt (SStmt.ifElse (SExpr.id xStr) [] [SStmt.printE (SExpr.id yStr)])) 1 false 0 =
      (branchBars 1 0 ++ midConn ++ "IF") ::
      (renderNode (buildExpr (SExpr.id xStr)) 2 false (0 ||| (1 <<< 1)) ++
       renderNode (blockNode []) 2 true (0 ||| (1 <<< 1))) ∧
    midConn ≠ lastConn ∧
    (renderNode (blockNode [SStmt.printE (SExpr.id yStr)]) 1 true 0).head? =
      some (branchBars 1 0 ++ lastConn ++ "BLOCK") :=
  C9_theorem (SExpr.id xStr) [] [SStmt.printE (SExpr.id yStr)] 1 0 (by decide)

/-! ### Event replay lemmas for the declaration checks -/

/-- True on use events. -/
def isUseEv : SemEvent → Bool
  | SemEvent.use _ => true
  | SemEvent.decl _ => false

theorem errBind {α β : Type} (e : Err) (f : α → Except Err β) :
    (Except.error e : Except Err α) >>= f = Except.error e := rfl

theorem okBind {α β : Type} (a : α) (f : α → Except Err β) :
    (Except.ok a : Except Err α) >>= f = f a := rfl

theorem runEvents_append (l1 l2 : List SemEvent) : ∀ t : Table,
    runEvents t (l1 ++ l2) =
      (match runEvents t l1 with
       | Except.error e => Except.error e
       | Except.ok t1 => runEvents t1 l2) := by
  induction l1 with
  | nil => intro t; simp [runEvents]
  | cons ev rest ih =>
    intro t
    cases ev with
    | use x => by_cases h : x ∈ t <;> simp [runEvents, h, ih]
    | decl x => by_cases h : x ∈ t <;> simp [runEvents, h, ih]

theorem exprEvents_uses (e : SExpr) : (exprEvents e).all isUseEv = true := by
  induction e <;> simp_all [exprEvents, isUseEv]

theorem runEvents_all_uses (l : List SemEvent) : ∀ t t1 : Table,
    l.all isUseEv = true → runEvents t l = Except.ok t1 → t1 = t := by
  induction l with
  | nil =>
    intro t t1 _ h
    simp [runEvents] at h
    exact h.symm
  | cons ev rest ih =>
    intro t t1 hall h
    cases ev with
    | use x =>
      simp only [List.all_cons, Bool.and_eq_true] at hall
      by_cases hx : x ∈ t
      · simp only [runEvents, if_pos hx] at h
        exact ih t t1 hall.2 h
      · simp [runEvents, hx] at h
    | decl x => simp [isUseEv] at hall

theorem runEvents_exprEvents (e : SExpr) (t t1 : Table)
    (h : runEvents t (exprEvents e) = Except.ok t1) : t1 = t :=
  runEvents_all_uses (exprEvents e) t t1 (exprEvents_uses e) h

theorem semExpr_bridge (e : SExpr) : ∀ t : Table,
    semExpr t e =
      (match runEvents t (exprEvents e) with
       | Except.error er => Except.error er
       | Except.ok _ => Except.ok (buildExpr e)) := by
  induction e with
  | assign x e ih =>
    intro t
    simp only [semExpr, exprEvents, buildExpr]
    rw [runEvents_append, ih t]
    cases hre : runEvents t (exprEvents e) with
    | error er => simp [errBind, okBind]
    | ok t1 =>
      have ht1 : t1 = t := runEvents_exprEvents e t t1 hre
      rw [ht1]
      by_cases h : x ∈ t <;> simp [errBind, okBind, runEvents, check_declared, h]
  | binop op l r ihl ihr =>
    intro t
    simp only [semExpr, exprEvents, buildExpr]
    rw [runEvents_append, ihl t, ihr t]
    cases hrl : runEvents t (exprEvents l) with
    | error er => simp [errBind, okBind]
    | ok t1 =>
      have ht1 : t1 = t := runEvents_exprEvents l t t1 hrl
      rw [ht1]
      cases hrr : runEvents t (exprEvents r) with
      | error er => simp [errBind, okBind, hrr]
      | ok t2 => simp [errBind, okBind, hrr]
  | neg e ih =>
    intro t
    simp only [semExpr, exprEvents, buildExpr]
    rw [ih t]
    cases hre : runEvents t (exprEvents e) with
    | error er => simp [errBind, okBind, hre]
    | ok t1 => simp [errBind, okBind, hre]
  | paren e ih =>
    intro t
    simp only [semExpr, exprEvents, buildExpr]
    exact ih t
  | num v => intro t; simp [semExpr, exprEvents, runEvents, buildExpr]
  | id x =>
    intro t
    by_cases h : x ∈ t <;>
      simp [semExpr, exprEvents, runEvents, check_declared, h, errBind, okBind, buildExpr]

mutual

theorem semStmt_bridge : ∀ (s : SStmt) (t : Table),
    semStmt t s =
      (match runEvents t (stmtEvents s) with
       | Except.error e => Except.error e
       | Except.ok t2 => Except.ok (t2, buildStmt s))
  | SStmt.declNoInit x, t => by
    by_cases h : x ∈ t <;>
      simp [semStmt, stmtEvents, runEvents, add_symbol, h, errBind, okBind, buildStmt]
  | SStmt.declInit x e, t => by
    simp only [semStmt, stmtEvents, buildStmt]
    rw [runEvents_append, semExpr_bridge e t]
    cases hre : runEvents t (exprEvents e) with
    | error er => simp [errBind, okBind]
    | ok t1 =>
      have ht1 : t1 = t := runEvents_exprEvents e t t1 hre
      rw [ht1]
      by_cases h : x ∈ t <;> simp [errBind, okBind, runEvents, add_symbol, h]
  | SStmt.exprStmt e, t => by
    simp only [semStmt, stmtEvents, buildStmt]
    rw [semExpr_bridge e t]
    cases hre : runEvents t (exprEvents e) with
    | error er => simp [errBind, okBind]
    | ok t1 =>
      have ht1 : t1 = t := runEvents_exprEvents e t t1 hre
      rw [ht1]
      simp [errBind, okBind]
  | SStmt.printE e, t => by
    simp only [semStmt, stmtEvents, buildStmt]
    rw [semExpr_bridge e t]
    cases hre : runEvents t (exprEvents e) with
    | error er => simp [errBind, okBind]
    | ok t1 =>
      have ht1 : t1 = t := runEvents_exprEvents e t t1 hre
      rw [ht1]
      simp [errBind, okBind]
  | SStmt.printS s, t => by
    simp [semStmt, stmtEvents, runEvents, buildStmt]
  | SStmt.ifThen c b, t => by
    simp only [semStmt, stmtEvents, buildStmt]
    rw [runEvents_append, semExpr_bridge c t]
    cases hrc : runEvents t (exprEvents c) with
    | error er => simp [errBind, okBind]
    | ok t1 =>
      have ht1 : t1 = t := runEvents_exprEvents c t t1 hrc
      rw [ht1]
      dsimp only [errBind, okBind]
      rw [semListAux_bridge b t Node.nullN]
      cases hrb : runEvents t (listEvents b) with
      | error er => simp [errBind, okBind, hrb]
      | ok t2 => simp [errBind, okBind, hrb]
  | SStmt.ifElse c b1 b2, t => by
    simp only [semStmt, stmtEvents, buildStmt]
    rw [runEvents_append, semExpr_bridge c t]
    cases hrc : runEvents t (exprEvents c) with
    | error er => simp [errBind, okBind]
    | ok t1 =>
      have ht1 : t1 = t := runEvents_exprEvents c t t1 hrc
      rw [ht1]
      dsimp only [errBind, okBind]
      rw [runEvents_append, semListAux_bridge b1 t Node.nullN]
      cases hb1 : runEvents t (listEvents b1) with
      | error er => simp [errBind, okBind, hb1]
      | ok t2 =>
        dsimp only [errBind, okBind]
        rw [semListAux_bridge b2 t2 Node.nullN]
        cases hb2 : runEvents t2 (listEvents b2) with
        | error er => simp [errBind, okBind, hb1, hb2]
        | ok t3 => simp [errBind, okBind, hb1, hb2]
termination_by structural s => s

theorem semListAux_bridge : ∀ (l : List SStmt) (t : Table) (acc : Node),
    semListAux t acc l =
      (match runEvents t (listEvents l) with
       | Except.error e => Except.error e
       | Except.ok t2 => Except.ok (t2, buildListAux acc l))
  | [], t, acc => by simp [semListAux, listEvents, runEvents, buildListAux]
  | s :: rest, t, acc => by
    simp only [semListAux, listEvents, buildListAux]
    rw [runEvents_append, semStmt_bridge s t]
    cases hs : runEvents t (stmtEvents s) with
    | error er => simp [errBind, okBind, hs]
    | ok t1 =>
      dsimp only [errBind, okBind]
      rw [semListAux_bridge rest t1]
termination_by structural l => l

end

/-- The compile pipeline factors through event replay: it fails with the
first failing table event, and succeeds producing the generated text of
the built chain. -/
theorem compile_events (p : List SStmt) :
    compile p =
      (match runEvents [] (listEvents p) with
       | Except.error e => Except.error e
       | Except.ok _ => Except.ok (targetCode (buildList p))) := by
  rw [compile, semList, semListAux_bridge p [] Node.nullN]
  cases hp : runEvents [] (listEvents p) <;> simp [buildList, hp]

theorem listEvents_append (l1 l2 : List SStmt) :
    listEvents (l1 ++ l2) = listEvents l1 ++ listEvents l2 := by
  induction l1 with
  | nil => simp [listEvents]
  | cons s rest ih => simp [listEvents, ih]

/-- The identifier `x` is used at a program point not preceded by any
declaration of `x` (in semantic-action order). -/
def UsesUndeclared (p : List SStmt) (x : String) : Prop :=
  ∃ l1 l2, listEvents p = l1 ++ SemEvent.use x :: l2 ∧ SemEvent.decl x ∉ l1

theorem runEvents_ok_use_mem (l1 : List SemEvent) :
    ∀ (t : Table) (x : String) (l2 : List SemEvent) (t2 : Table),
    runEvents t (l1 ++ SemEvent.use x :: l2) = Except.ok t2 →
    SemEvent.decl x ∉ l1 → x ∈ t := by
  induction l1 with
  | nil =>
    intro t x l2 t2 h _
    by_cases hx : x ∈ t
    · exact hx
    · simp [runEvents, hx] at h
  | cons ev rest ih =>
    intro t x l2 t2 h hnd
    cases ev with
    | use y =>
      by_cases hy : y ∈ t
      · simp only [List.cons_append, runEvents, if_pos hy] at h
        exact ih t x l2 t2 h (fun hc => hnd (by simp [hc]))
      · simp [runEvents, hy] at h
    | decl y =>
      have hyx : y ≠ x := fun he => hnd (by simp [he])
      by_cases hy : y ∈ t
      · simp [runEvents, hy] at h
      · simp only [List.cons_append, runEvents, if_neg hy] at h
        have hmem := ih (y :: t) x l2 t2 h (fun hc => hnd (by simp [hc]))
        rcases List.mem_cons.mp hmem with h1 | h1
        · exact absurd h1.symm hyx
        · exact h1

/-! ### C2 — undeclared variables -/

/-- C2 (counterexample): in `print(a); print(b);` the identifier `b` is
used and never declared, yet compilation does not fail with
`UndeclaredVariable(b)` — the earlier failing use of `a` wins. -/
theorem C2_counterexample :
    listEvents pUndecl2 = [SemEvent.use aStr, SemEvent.use bStr] ∧
    SemEvent.decl bStr ∉ [SemEvent.use aStr] ∧
    compile pUndecl2 = Except.error (Err.undeclaredVariable aStr) ∧
    compile pUndecl2 ≠ Except.error (Err.undeclaredVariable bStr) := by
  refine ⟨rfl, by decide, rfl, ?_⟩
  have h : compile pUndecl2 = Except.error (Err.undeclaredVariable aStr) := rfl
  rw [h]
  simp [aStr, bStr]

/-- C2 (amended): if any identifier is used without a preceding
declaration, compilation fails (with the first failing check) and no
`output.c` text is produced; and whenever the use of `x` is the first
failing table event of the program — every earlier declare/use event
succeeds and `x` is undeclared in the table those events produce — the
error is exactly `UndeclaredVariable(x)`. -/
theorem C2_theorem :
    (∀ (p : List SStmt) (x : String), UsesUndeclared p x →
      ∃ er, compile p = Except.error er) ∧
    (∀ (p : List SStmt) (x : String) (l1 l2 : List SemEvent) (t : Table),
      listEvents p = l1 ++ SemEvent.use x :: l2 →
      runEvents [] l1 = Except.ok t → x ∉ t →
      compile p = Except.error (Err.undeclaredVariable x)) := by
  constructor
  · rintro p x ⟨l1, l2, hev, hnd⟩
    rw [compile_events p]
    cases hre : runEvents [] (listEvents p) with
    | error er => exact ⟨er, rfl⟩
    | ok t2 =>
      rw [hev] at hre
      have hmem := runEvents_ok_use_mem l1 [] x l2 t2 hre hnd
      simp at hmem
  · intro p x l1 l2 t hev hrun hx
    rw [compile_events p, hev, runEvents_append, hrun]
    simp [runEvents, hx]

/-- C2 (witness): the amended theorem applied to `int y; print(y + x);`
with `x` undeclared — the use of `y` inside the same statement succeeds
first, and the error is still exactly `UndeclaredVariable(x)`. -/
theorem C2_witness :
    compile [SStmt.declNoInit yStr,
        SStmt.printE (SExpr.binop plusStr (SExpr.id yStr) (SExpr.id xStr))] =
      Except.error (Err.undeclaredVariable xStr) :=
  C2_theorem.2
    [SStmt.declNoInit yStr,
      SStmt.printE (SExpr.binop plusStr (SExpr.id yStr) (SExpr.id xStr))]
    xStr [SemEvent.decl yStr, SemEvent.use yStr] [] [yStr]
    rfl rfl (by decide)

/-! ### C3 — duplicate declarations -/

/-- C3 (counterexample): `int x; print(y); int x;` contains two
declarations of `x`, but compilation fails with `UndeclaredVariable(y)`
raised by the intervening statement, not with `DuplicateDeclaration`. -/
theorem C3_counterexample :
    listEvents pDup = [SemEvent.decl xStr, SemEvent.use yStr, SemEvent.decl xStr] ∧
    compile pDup = Except.error (Err.undeclaredVariable yStr) ∧
    Err.undeclaredVariable yStr ≠ Err.duplicateDeclaration xStr := by
  refine ⟨rfl, rfl, by decide⟩

/-- C3 (amended): whenever a declare event for `x` (from either
declaration form — the initializer of `int x = e;` is checked first) is
the first failing table event of the program, i.e. every earlier
declare/use event succeeds and `x` is already in the table those events
produce, compilation fails with exactly `DuplicateDeclaration(x)`,
regardless of the intervening error-free statements; an earlier failing
event (such as an undeclared use inside the initializer of the second
declaration) preempts it instead. -/
theorem C3_theorem :
    ∀ (p : List SStmt) (x : String) (l1 l2 : List SemEvent) (t : Table),
      listEvents p = l1 ++ SemEvent.decl x :: l2 →
      runEvents [] l1 = Except.ok t → x ∈ t →
      compile p = Except.error (Err.duplicateDeclaration x) := by
  intro p x l1 l2 t hev hrun hx
  rw [compile_events p, hev, runEvents_append, hrun]
  simp [runEvents, hx]

/-- C3 (witness): the amended theorem applied to `int x; int x = 5;` —
the second declaration carries an initializer and still fails with
`DuplicateDeclaration(x)`. -/
theorem C3_witness :
    compile [SStmt.declNoInit xStr, SStmt.declInit xStr (SExpr.num 5)] =
      Except.error (Err.duplicateDeclaration xStr) :=
  C3_theorem [SStmt.declNoInit xStr, SStmt.declInit xStr (SExpr.num 5)]
    xStr [SemEvent.decl xStr] [] [xStr] rfl rfl (by decide)

/-! ### C7 — support lemmas for the round-trip proof -/

theorem str_data_append (a b : String) : (a ++ b).data = a.data ++ b.data := by
  cases a
  cases b
  rfl

theorem mk_data (s : String) : String.mk s.data = s := rfl

/-- The character after the generated text, if any, must not extend a
number or identifier token. -/
def sepOkB : List Char → Bool
  | [] => true
  | c :: _ => !(isDigitC c) && !(isAlphaC c)

theorem sepOkB_cons (c : Char) (tail : List Char) :
    sepOkB (c :: tail) = (!(isDigitC c) && !(isAlphaC c)) := rfl

theorem sep_digit {rest : List Char} (h : sepOkB rest = true) :
    ∀ c, rest.head? = some c → isDigitC c = false := by
  intro c hc
  cases rest with
  | nil => simp at hc
  | cons d tail =>
    simp at hc
    rw [sepOkB_cons] at h
    simp [hc] at h
    simp [h.1]

theorem sep_alpha {rest : List Char} (h : sepOkB rest = true) :
    ∀ c, rest.head? = some c → isAlphaC c = false := by
  intro c hc
  cases rest with
  | nil => simp at hc
  | cons d tail =>
    simp at hc
    rw [sepOkB_cons] at h
    simp [hc] at h
    simp [h.2]

theorem isAlphaC_facts (c : Char) (h : isAlphaC c = true) :
    isDigitC c = false ∧ ¬(c = lparenC) ∧ ¬(c = minusC) := by
  simp [isAlphaC] at h
  refine ⟨?_, ?_, ?_⟩
  · simp [isDigitC]
    omega
  · intro he
    have h40 : c.toNat = 40 := by rw [he]; decide
    omega
  · intro he
    have h45 : c.toNat = 45 := by rw [he]; decide
    omega

theorem isDigitC_facts (c : Char) (h : isDigitC c = true) :
    ¬(c = lparenC) ∧ ¬(c = minusC) := by
  simp [isDigitC] at h
  constructor
  · intro he
    have h40 : c.toNat = 40 := by rw [he]; decide
    omega
  · intro he
    have h45 : c.toNat = 45 := by rw [he]; decide
    omega

theorem takeWhileC_append_all (p : Char → Bool) (l : List Char) :
    ∀ rest : List Char, (∀ c ∈ l, p c = true) →
    (∀ c, rest.head? = some c → p c = false) →
    takeWhileC p (l ++ rest) = (l, rest) := by
  induction l with
  | nil =>
    intro rest _ hrest
    cases rest with
    | nil => rfl
    | cons c cs =>
      have hc := hrest c rfl
      simp [takeWhileC, hc]
  | cons c cs ih =>
    intro rest hall hrest
    have hc : p c = true := hall c (by simp)
    simp [takeWhileC, hc, ih rest (fun d hd => hall d (by simp [hd])) hrest]

theorem goodName_parts {x : String} (h : goodName x = true) :
    x.data ≠ [] ∧ ∀ c ∈ x.data, isAlphaC c = true := by
  simp only [goodName, Bool.and_eq_true, Bool.not_eq_true', List.all_eq_true] at h
  constructor
  · intro he
    have h1 := h.1
    rw [he] at h1
    simp at h1
  · exact h.2

theorem binop_op_facts (op : String) (h : op ∈ binopStrs) :
    ¬(op = negStr) ∧ op.data ≠ [] ∧ (∀ c ∈ op.data, (!(c = spaceC)) = true) ∧
      ¬(op.data = [eqC]) := by
  simp only [binopStrs, List.mem_cons, List.not_mem_nil, or_false] at h
  rcases h with rfl | rfl | rfl | rfl | rfl | rfl | rfl | rfl | rfl | rfl <;>
    exact ⟨by decide, by decide, by decide, by decide⟩

theorem wf_not_null {n : Node} (h : wfExpr n = true) : n ≠ Node.nullN := by
  intro he
  rw [he] at h
  simp [wfExpr] at h

theorem depthE_pos (n : Node) (h : wfExpr n = true) : 1 ≤ depthE n := by
  cases n with
  | nullN => simp [wfExpr] at h
  | node t sv iv l r nxt => simp [depthE]

/-! Single-branch unfolding lemmas for the reference parser. -/

theorem parseE_digit (fuel : Nat) (c : Char) (rest : List Char)
    (h1 : ¬(c = lparenC)) (h2 : isDigitC c = true) :
    parseE (fuel + 1) (c :: rest) =
      some (mknode NodeType.N_NUM none
          (Int.ofNat (digitsVal (takeWhileC isDigitC (c :: rest)).1))
          Node.nullN Node.nullN,
        (takeWhileC isDigitC (c :: rest)).2) := by
  rw [parseE.eq_def]
  simp [h1, h2]

theorem parseE_alpha (fuel : Nat) (c : Char) (rest : List Char)
    (h1 : ¬(c = lparenC)) (h2 : isDigitC c = false) (h3 : isAlphaC c = true) :
    parseE (fuel + 1) (c :: rest) =
      some (mknode NodeType.N_ID
          (some (String.mk (takeWhileC isAlphaC (c :: rest)).1)) 0
          Node.nullN Node.nullN,
        (takeWhileC isAlphaC (c :: rest)).2) := by
  rw [parseE.eq_def]
  simp [h1, h2, h3]

theorem parseE_neg (fuel : Nat) (rest2 r2 : List Char) (e : Node)
    (hp : parseE fuel rest2 = some (e, rparenC :: r2)) :
    parseE (fuel + 1) (lparenC :: minusC :: rest2) =
      some (mknode NodeType.N_BINOP (some negStr) 0 e Node.nullN, r2) := by
  rw [parseE.eq_def]
  simp [hp]

theorem parseE_binop (fuel : Nat) (m : Char) (rest2 afterL r3 r5 : List Char)
    (lhs rhs : Node) (opd : List Char)
    (hm : ¬(m = minusC))
    (hp1 : parseE fuel (m :: rest2) = some (lhs, spaceC :: afterL))
    (hop : takeWhileC (fun d => !(d = spaceC)) afterL = (opd, spaceC :: r3))
    (hp2 : parseE fuel r3 = some (rhs, rparenC :: r5))
    (hne : ¬(opd = [eqC])) :
    parseE (fuel + 1) (lparenC :: m :: rest2) =
      some (mknode NodeType.N_BINOP (some (String.mk opd)) 0 lhs rhs, r5) := by
  rw [parseE.eq_def]
  simp [hm, hp1, hop, hp2, hne]

theorem parseE_assign (fuel : Nat) (m : Char) (rest2 afterL r3 r5 : List Char)
    (x : String) (rhs : Node)
    (hm : ¬(m = minusC))
    (hp1 : parseE fuel (m :: rest2) =
      some (Node.node NodeType.N_ID (some x) 0 Node.nullN Node.nullN Node.nullN,
        spaceC :: afterL))
    (hop : takeWhileC (fun d => !(d = spaceC)) afterL = ([eqC], spaceC :: r3))
    (hp2 : parseE fuel r3 = some (rhs, rparenC :: r5)) :
    parseE (fuel + 1) (lparenC :: m :: rest2) =
      some (mknode NodeType.N_ASSIGN (some x) 0 rhs Node.nullN, r5) := by
  rw [parseE.eq_def]
  simp [hm, hp1, hop, hp2]

theorem parse_id_atom (x : String) (fuel : Nat) (rest : List Char)
    (hx : goodName x = true)
    (hrest : ∀ c, rest.head? = some c → isAlphaC c = false) :
    parseE (fuel + 1) (x.data ++ rest) =
      some (mknode NodeType.N_ID (some x) 0 Node.nullN Node.nullN, rest) := by
  obtain ⟨hne, hall⟩ := goodName_parts hx
  have htake := takeWhileC_append_all isAlphaC x.data rest hall hrest
  cases hd : x.data with
  | nil => exact absurd hd hne
  | cons c cs =>
    have hca : isAlphaC c = true := hall c (by rw [hd]; simp)
    obtain ⟨hnd, hnlp, _⟩ := isAlphaC_facts c hca
    rw [hd] at htake
    rw [List.cons_append, parseE_alpha fuel c (cs ++ rest) hnlp hnd hca,
      ← List.cons_append, htake]
    rw [← hd]

theorem data_lp : "(".data = [lparenC] := by decide

theorem data_rp : ")".data = [rparenC] := by decide

theorem data_sp : " ".data = [spaceC] := by decide

theorem data_speqsp : " = ".data = [spaceC, eqC, spaceC] := by decide

theorem data_lpminus : "(-".data = [lparenC, minusC] := by decide

theorem genData_assign (s : String) (iv : Int) (l r nxt : Node) :
    (gen_expr (Node.node NodeType.N_ASSIGN (some s) iv l r nxt)).data =
      lparenC :: (s.data ++ (spaceC :: eqC :: spaceC :: ((gen_expr l).data ++ [rparenC]))) := by
  simp [gen_expr, str_data_append, svalStr, data_lp, data_speqsp, data_rp]
  decide

theorem genData_neg (iv : Int) (l r nxt : Node) :
    (gen_expr (Node.node NodeType.N_BINOP (some negStr) iv l r nxt)).data =
      lparenC :: minusC :: ((gen_expr l).data ++ [rparenC]) := by
  simp [gen_expr, str_data_append, data_lpminus, data_rp]
  decide

theorem genData_binop (op : String) (hop : ¬(op = negStr)) (iv : Int) (l r nxt : Node) :
    (gen_expr (Node.node NodeType.N_BINOP (some op) iv l r nxt)).data =
      lparenC :: ((gen_expr l).data ++
        (spaceC :: (op.data ++ (spaceC :: ((gen_expr r).data ++ [rparenC]))))) := by
  have hne : ¬(some op = some negStr) := by simp [hop]
  simp [gen_expr, str_data_append, svalStr, data_lp, data_sp, data_rp, hne]
  decide

/-- First character of generated well-formed expression text: the text is
non-empty and never begins with a minus sign. -/
theorem genExpr_head (n : Node) (h : wfExpr n = true) :
    ∃ c cs, (gen_expr n).data = c :: cs ∧ ¬(c = minusC) := by
  cases n with
  | nullN => simp [wfExpr] at h
  | node t sv iv l r nxt =>
    simp only [wfExpr, Bool.and_eq_true] at h
    obtain ⟨hnxt, hm⟩ := h
    cases t with
    | N_NUM =>
      cases sv with
      | some s => simp at hm
      | none =>
        dsimp only at hm
        have hiv : 0 ≤ iv := by
          have h1 : decide (0 ≤ iv) = true := by
            cases hb : decide (0 ≤ iv) with
            | true => rfl
            | false => rw [hb] at hm; simp at hm
          exact of_decide_eq_true h1
        cases hnc : natDecChars iv.toNat with
        | nil => exact absurd hnc (natDecChars_ne_nil iv.toNat)
        | cons c cs =>
          have hcd : isDigitC c = true := by
            have hall := natDecChars_digits iv.toNat
            rw [hnc] at hall
            simp [List.all_cons] at hall
            exact hall.1
          refine ⟨c, cs, ?_, (isDigitC_facts c hcd).2⟩
          simp [gen_expr, intToDec, if_neg (not_lt.mpr hiv), hnc]
    | N_ID =>
      cases sv with
      | none => simp at hm
      | some s =>
        dsimp only at hm
        have hgn : goodName s = true := by
          cases hb : goodName s with
          | true => rfl
          | false => rw [hb] at hm; simp at hm
        obtain ⟨hne, hall⟩ := goodName_parts hgn
        cases hd : s.data with
        | nil => exact absurd hd hne
        | cons c cs =>
          have hca := hall c (by rw [hd]; simp)
          exact ⟨c, cs, by simp [gen_expr, svalStr, hd], (isAlphaC_facts c hca).2.2⟩
    | N_ASSIGN =>
      cases sv with
      | none => simp at hm
      | some s => exact ⟨lparenC, _, genData_assign s iv l r nxt, by decide⟩
    | N_BINOP =>
      cases sv with
      | none => simp at hm
      | some op =>
        by_cases hop : op = negStr
        · subst hop
          exact ⟨lparenC, _, genData_neg iv l r nxt, by decide⟩
        · exact ⟨lparenC, _, genData_binop op hop iv l r nxt, by decide⟩
    | N_DECL => simp at hm
    | N_PRINT => simp at hm
    | N_PRINT_STR => simp at hm
    | N_IF => simp at hm
    | N_STMTLIST => simp at hm

theorem takeOp_eqC (Y : List Char) :
    takeWhileC (fun d => !(d = spaceC)) (eqC :: spaceC :: Y) = ([eqC], spaceC :: Y) := by
  have h1 : (!(eqC = spaceC)) = true := by decide
  have h2 : (!(spaceC = spaceC)) = false := by decide
  simp [takeWhileC, h1, h2]

theorem takeOp_op (op : String) (hmem : op ∈ binopStrs) (Y : List Char) :
    takeWhileC (fun d => !(d = spaceC)) (op.data ++ spaceC :: Y) = (op.data, spaceC :: Y) := by
  apply takeWhileC_append_all
  · exact (binop_op_facts op hmem).2.2.1
  · intro c hc
    simp at hc
    subst hc
    decide

/-- C7: re-parsing the generated expression text with the reference
parser of fully parenthesised expressions reproduces the original
operator tree exactly — `parse (emit t) = t` for every well-formed
expression node, with any separator-safe remainder passed through. -/
theorem C7_theorem :
    ∀ (n : Node) (fuel : Nat) (rest : List Char),
      wfExpr n = true → depthE n ≤ fuel → sepOkB rest = true →
      parseE fuel ((gen_expr n).data ++ rest) = some (n, rest) := by
  intro n
  induction n with
  | nullN =>
    intro fuel rest h _ _
    simp [wfExpr] at h
  | node t sv iv l r nxt ihl ihr ihn =>
    intro fuel rest hwf hfd hsep
    have hd1 : 1 ≤ depthE (Node.node t sv iv l r nxt) := by simp [depthE]
    cases fuel with
    | zero => omega
    | succ f =>
    simp only [wfExpr, Bool.and_eq_true] at hwf
    obtain ⟨hnxt, hm⟩ := hwf
    have hnxtn : nxt = Node.nullN := by
      cases nxt with
      | nullN => rfl
      | node t2 a b c d e => simp [isNullNode] at hnxt
    subst hnxtn
    simp only [depthE] at hfd
    cases t with
    | N_NUM =>
      cases sv with
      | some s => simp at hm
      | none =>
        dsimp only at hm
        simp only [Bool.and_eq_true, decide_eq_true_eq] at hm
        obtain ⟨⟨hiv, hl⟩, hr⟩ := hm
        have hl0 : l = Node.nullN := by
          cases l with
          | nullN => rfl
          | node t2 a b c d e => simp [isNullNode] at hl
        have hr0 : r = Node.nullN := by
          cases r with
          | nullN => rfl
          | node t2 a b c d e => simp [isNullNode] at hr
        subst hl0
        subst hr0
        have hgen : (gen_expr
            (Node.node NodeType.N_NUM none iv Node.nullN Node.nullN Node.nullN)).data
            = natDecChars iv.toNat := by
          simp [gen_expr, intToDec, if_neg (not_lt.mpr hiv)]
        rw [hgen]
        cases hnc : natDecChars iv.toNat with
        | nil => exact absurd hnc (natDecChars_ne_nil iv.toNat)
        | cons c cs =>
          have halld : ∀ d ∈ c :: cs, isDigitC d = true := by
            have h0 := natDecChars_digits iv.toNat
            rw [hnc] at h0
            exact List.all_eq_true.mp h0
          have hcd : isDigitC c = true := halld c (by simp)
          obtain ⟨hnlp, _⟩ := isDigitC_facts c hcd
          have htake := takeWhileC_append_all isDigitC (c :: cs) rest halld
            (sep_digit hsep)
          rw [List.cons_append, parseE_digit f c (cs ++ rest) hnlp hcd,
            ← List.cons_append, htake]
          have hofnat : Int.ofNat iv.toNat = iv := by
            rw [Int.ofNat_eq_natCast]
            exact Int.toNat_of_nonneg hiv
          simp only [← hnc, digitsVal_natDecChars, hofnat, mknode]
    | N_ID =>
      cases sv with
      | none => simp at hm
      | some s =>
        dsimp only at hm
        simp only [Bool.and_eq_true, decide_eq_true_eq] at hm
        obtain ⟨⟨⟨hgn, hiv⟩, hl⟩, hr⟩ := hm
        subst hiv
        have hgen : (gen_expr
            (Node.node NodeType.N_ID (some s) 0 l r Node.nullN)).data = s.data := by
          simp [gen_expr, svalStr]
        have hl0 : l = Node.nullN := by
          cases l with
          | nullN => rfl
          | node t2 a b c d e => simp [isNullNode] at hl
        have hr0 : r = Node.nullN := by
          cases r with
          | nullN => rfl
          | node t2 a b c d e => simp [isNullNode] at hr
        subst hl0
        subst hr0
        rw [hgen]
        exact parse_id_atom s f rest hgn (sep_alpha hsep)
    | N_ASSIGN =>
      cases sv with
      | none => simp at hm
      | some s =>
        dsimp only at hm
        simp only [Bool.and_eq_true, decide_eq_true_eq] at hm
        obtain ⟨⟨⟨hgn, hiv⟩, hwl⟩, hr⟩ := hm
        subst hiv
        have hr0 : r = Node.nullN := by
          cases r with
          | nullN => rfl
          | node t2 a b c d e => simp [isNullNode] at hr
        subst hr0
        have hdl := depthE_pos l hwl
        have hf1 : 1 ≤ f := by
          simp only [depthE] at hfd ⊢
          omega
        cases f with
        | zero => omega
        | succ g =>
        rw [genData_assign]
        obtain ⟨hne, hall⟩ := goodName_parts hgn
        cases hsd : s.data with
        | nil => exact absurd hsd hne
        | cons c cs =>
          have hca : isAlphaC c = true := hall c (by rw [hsd]; simp)
          simp only [List.cons_append, List.append_assoc, List.singleton_append,
            List.nil_append]
          apply parseE_assign (g + 1) c
            (cs ++ spaceC :: eqC :: spaceC :: ((gen_expr l).data ++ rparenC :: rest))
            (eqC :: spaceC :: ((gen_expr l).data ++ rparenC :: rest))
            ((gen_expr l).data ++ rparenC :: rest) rest s l
            (isAlphaC_facts c hca).2.2
          · rw [← List.cons_append, ← hsd]
            have hid := parse_id_atom s g
              (spaceC :: eqC :: spaceC :: ((gen_expr l).data ++ rparenC :: rest)) hgn
              (by intro d hd2; simp at hd2; subst hd2; decide)
            simpa [mknode] using hid
          · exact takeOp_eqC ((gen_expr l).data ++ rparenC :: rest)
          · apply ihl (g + 1) (rparenC :: rest) hwl (by omega)
            rw [sepOkB_cons]
            decide
    | N_BINOP =>
      cases sv with
      | none => simp at hm
      | some op =>
        dsimp only at hm
        simp only [Bool.and_eq_true, decide_eq_true_eq] at hm
        obtain ⟨hiv, hm2⟩ := hm
        subst hiv
        by_cases hop : op = negStr
        · subst hop
          rw [if_pos rfl] at hm2
          simp only [Bool.and_eq_true] at hm2
          obtain ⟨hwl, hr⟩ := hm2
          have hr0 : r = Node.nullN := by
            cases r with
            | nullN => rfl
            | node t2 a b c d e => simp [isNullNode] at hr
          subst hr0
          rw [genData_neg]
          simp only [List.cons_append, List.append_assoc, List.singleton_append,
            List.nil_append]
          apply parseE_neg f ((gen_expr l).data ++ rparenC :: rest) rest l
          apply ihl f (rparenC :: rest) hwl (by omega)
          rw [sepOkB_cons]
          decide
        · rw [if_neg hop] at hm2
          simp only [Bool.and_eq_true, decide_eq_true_eq] at hm2
          obtain ⟨⟨hmem, hwl⟩, hwr⟩ := hm2
          rw [genData_binop op hop]
          simp only [List.cons_append, List.append_assoc, List.singleton_append,
            List.nil_append]
          obtain ⟨c, cs, hcl, hcm⟩ := genExpr_head l hwl
          rw [hcl, List.cons_append]
          have hres := parseE_binop f c
            (cs ++ spaceC :: (op.data ++ spaceC :: ((gen_expr r).data ++ rparenC :: rest)))
            (op.data ++ spaceC :: ((gen_expr r).data ++ rparenC :: rest))
            ((gen_expr r).data ++ rparenC :: rest) rest l r op.data hcm
            (by
              rw [← List.cons_append, ← hcl]
              exact ihl f (spaceC :: (op.data ++ spaceC :: ((gen_expr r).data ++ rparenC :: rest)))
                hwl (by omega) (by rw [sepOkB_cons]; decide))
            (takeOp_op op hmem ((gen_expr r).data ++ rparenC :: rest))
            (ihr f (rparenC :: rest) hwr (by omega) (by rw [sepOkB_cons]; decide))
            (binop_op_facts op hmem).2.2.2
          rw [hres, mk_data]
          rfl
    | N_DECL => simp at hm
    | N_PRINT => simp at hm
    | N_PRINT_STR => simp at hm
    | N_IF => simp at hm
    | N_STMTLIST => simp at hm

/-- C7 (witness): the round trip applied to the concrete expression node
for `x = (y + (-12))` with fuel 10 and empty remainder. -/
theorem C7_witness :
    parseE 10 ((gen_expr eSample).data ++ []) = some (eSample, []) :=
  C7_theorem eSample 10 [] (by decide) (by decide) rfl

end CompilerProject
